import Mathlib

/-!
Verification of the PostBOUND fork's core: the TONIC/QEP-S learning synopsis
(`postbound/optimizer/strategies/tonic.py`) and the MySQL hint compiler
(`postbound/db/mysql.py`), shallowly embedded in Lean.

Python dictionaries preserve insertion order; they are embedded as
association lists.  Python floats used for costs are embedded as an
explicit NaN-or-rational type (`PyFloat`); the decay factor gamma is a
rational.  Classes of this repository that are not part of the provided
sources (table references, join-tree nodes, execution-plan nodes, the
physical-operator assignment and plan parameterization containers, and
`dict_utils.argmin`) are modelled from the spec; each such definition
carries a doc comment saying so.
-/

/-- Modelled from the spec: `TableReference.identifier()` renders the
SQL-visible name; tables are embedded directly by that name. -/
abbrev Table := String

/-- Modelled from the spec: filter-predicate descriptors are opaque values
compared structurally; embedded as strings. -/
abbrev Pred := String

/-- Join operators of `physops.JoinOperators` referenced by the sources.
Modelled from the spec (the `physops` module is not among the sources). -/
inductive JoinOperators where
  | NestedLoopJoin
  | HashJoin
  | MergeJoin
  | IndexJoin
  | IndexMergeJoin
  | BlockNestedLoopJoin
  deriving DecidableEq, Repr

/-- Scan operators of `physops.ScanOperators`.  Modelled from the spec. -/
inductive ScanOperators where
  | SeqScan
  | IndexScan
  | IndexOnlyScan
  deriving DecidableEq, Repr

/-- A physical operator: either a join or a scan operator.  Modelled from
the spec. -/
inductive PhysicalOperator where
  | join (op : JoinOperators)
  | scan (op : ScanOperators)
  deriving DecidableEq, Repr

/-- A Python float as used for plan costs: either NaN or a numeric value. -/
inductive PyFloat where
  | nan
  | val (q : ℚ)

/-- `math.isnan` on an embedded float. -/
def PyFloat.isnan : PyFloat → Bool
  | .nan => true
  | .val _ => false

/-- Lookup in an insertion-ordered dictionary (association list). -/
def assocLookup {κ α : Type} [DecidableEq κ] : List (κ × α) → κ → Option α
  | [], _ => none
  | (k, v) :: rest, key => if key = k then some v else assocLookup rest key

/-- `d[key] = value` on an insertion-ordered dictionary: replaces the value
in place when the key is present, otherwise appends the new entry at the
end, exactly like a Python dict. -/
def assocSet {κ α : Type} [DecidableEq κ] : List (κ × α) → κ → α → List (κ × α)
  | [], key, value => [(key, value)]
  | (k, v) :: rest, key, value =>
    if key = k then (k, value) :: rest else (k, v) :: assocSet rest key value

/-- `QepsIdentifier` (tonic.py): a frozenset of tables plus an optional
filter predicate, compared structurally. -/
structure QepsIdentifier where
  tables : Finset Table
  filter_predicate : Option Pred
  deriving DecidableEq

/-- Modelled from the spec: the part of `qal.SqlQuery` that the learning
core consumes, namely `query.predicates().filters_for(table)` (the
conjunction of filters on one base table, `none` when there is no filter)
together with an opaque query body and an optional hint clause slot. -/
structure SqlQuery where
  filters : Table → Option Pred
  hintText : Option (String × String)
  body : String

/-- `QepsNode` (tonic.py): per-operator cost history, lazily created
children keyed by `QepsIdentifier`, and an optional subquery root.
`operator_costs` and `child_nodes` are Python dicts, embedded as
insertion-ordered association lists. -/
inductive QepsNode where
  | mk (filter_aware : Bool) (gamma : ℚ)
       (operator_costs : List (PhysicalOperator × ℚ))
       (child_nodes : List (QepsIdentifier × QepsNode))
       (subquery_root : Option QepsNode)

namespace QepsNode

def filter_aware : QepsNode → Bool
  | .mk fa _ _ _ _ => fa

def gamma : QepsNode → ℚ
  | .mk _ g _ _ _ => g

def operator_costs : QepsNode → List (PhysicalOperator × ℚ)
  | .mk _ _ oc _ _ => oc

def child_nodes : QepsNode → List (QepsIdentifier × QepsNode)
  | .mk _ _ _ cn _ => cn

def subquery_root_raw : QepsNode → Option QepsNode
  | .mk _ _ _ _ sq => sq

/-- `QepsNode._init_qeps`: a fresh child node inheriting the parent's
`filter_aware` and `gamma`. -/
def init_qeps (n : QepsNode) : QepsNode :=
  .mk n.filter_aware n.gamma [] [] none

/-- Read access `self.child_nodes[identifier]` on the defaultdict: the
stored child when present, otherwise a fresh node via `_init_qeps`.
(The defaultdict also inserts the fresh empty child on read; that
insertion is not observable through any of the operations embedded here,
so the state-threading functions below re-insert the child explicitly.) -/
def getChild (n : QepsNode) (ident : QepsIdentifier) : QepsNode :=
  (assocLookup n.child_nodes ident).getD n.init_qeps

/-- Store a (possibly updated) child node back into `child_nodes`. -/
def setChild (n : QepsNode) (ident : QepsIdentifier) (c : QepsNode) : QepsNode :=
  match n with
  | .mk fa g oc cn sq => .mk fa g oc (assocSet cn ident c) sq

/-- The `subquery_root` property: lazily created with the node's own
`filter_aware` and `gamma`. -/
def subquery_root (n : QepsNode) : QepsNode :=
  (n.subquery_root_raw).getD n.init_qeps

/-- Store the subquery root back (the lazy property assigns it on first
access). -/
def setSubqueryRoot (n : QepsNode) (sq : QepsNode) : QepsNode :=
  match n with
  | .mk fa g oc cn _ => .mk fa g oc cn (some sq)

/-- `QepsNode.update_costs` (tonic.py lines 129-131):
`cost_new = observed_cost + gamma * cost_old`, where a previously absent
entry reads as 0 through the defaultdict. -/
def update_costs (n : QepsNode) (operator : PhysicalOperator) (cost : ℚ) : QepsNode :=
  match n with
  | .mk fa g oc cn sq =>
    let current_cost := (assocLookup oc operator).getD 0
    .mk fa g (assocSet oc operator (cost + g * current_cost)) cn sq

/-- `QepsNode._make_identifier` (tonic.py lines 150-152). -/
def make_identifier (n : QepsNode) (query : SqlQuery) (table : Table) : QepsIdentifier :=
  let filter_predicate := if n.filter_aware then query.filters table else none
  ⟨{table}, filter_predicate⟩

end QepsNode

/-- Modelled from the spec: `dict_utils.argmin` (the `dict_utils` module is
not among the sources) returns the key with the minimum value; ties are
broken in favour of the first key in insertion order, matching Python's
`min` over the dict's iteration order. -/
def argminAssocGo (best : PhysicalOperator × ℚ) :
    List (PhysicalOperator × ℚ) → PhysicalOperator
  | [] => best.1
  | (k, v) :: rest =>
    if v < best.2 then argminAssocGo (k, v) rest else argminAssocGo best rest

/-- `dict_utils.argmin` on an insertion-ordered dictionary; `none` on an
empty dictionary (where Python's `min` would raise). -/
def argminAssoc : List (PhysicalOperator × ℚ) → Option PhysicalOperator
  | [] => none
  | e :: rest => some (argminAssocGo e rest)

/-- `QepsNode.current_recommendation` (tonic.py lines 126-127): the
minimum-cost operator, but only when more than one operator has a
recorded cost. -/
def QepsNode.current_recommendation (n : QepsNode) : Option PhysicalOperator :=
  if 1 < n.operator_costs.length then argminAssoc n.operator_costs else none

/-- Modelled from the spec: `jointree.AbstractJoinTreeNode`, the tagged
union of `BaseTableNode` (one table, optional cardinality upper bound)
and `IntermediateJoinNode` (two ordered children, optional upper bound).
The `jointree` module is not among the sources; only the accessors the
sources read are modelled. -/
inductive JoinTreeNode where
  | base (table : Table) (upper_bound : Option ℚ)
  | joinNode (left_child right_child : JoinTreeNode) (upper_bound : Option ℚ)
  deriving DecidableEq, Repr

/-- Modelled from the spec: the table set of a join-tree node (disjoint
union of the children's table sets). -/
def JoinTreeNode.tables : JoinTreeNode → Finset Table
  | .base t _ => {t}
  | .joinNode l r _ => l.tables ∪ r.tables

/-- `_iterate_join_tree` (tonic.py lines 15-19): leaves yield nothing;
an intermediate node yields its right subtree's linearization followed by
the node itself. -/
def iterateJoinTree : JoinTreeNode → List JoinTreeNode
  | .base _ _ => []
  | .joinNode l r b => iterateJoinTree r ++ [.joinNode l r b]

/-- Weight of the join sequence `_iterate_join_tree` produces for a tree;
used as the termination measure of the synopsis walks. -/
def jtSpineWeight : JoinTreeNode → Nat
  | .base _ _ => 0
  | .joinNode l r _ => jtSpineWeight r + (jtSpineWeight l + 1)

/-- Weight of a single element of a linearized join sequence. -/
def jtWeight : JoinTreeNode → Nat
  | .base _ _ => 1
  | .joinNode l _ _ => jtSpineWeight l + 1

/-- Modelled from the spec: `physops.JoinOperatorAssignment`, the chosen
operator for one join together with the joined table set. -/
structure JoinOperatorAssignment where
  operator : PhysicalOperator
  join : Finset Table
  deriving DecidableEq

/-- Modelled from the spec: `physops.ScanOperatorAssignment`. -/
structure ScanOperatorAssignment where
  operator : ScanOperators
  deriving DecidableEq

/-- Modelled from the spec: `physops.PhysicalOperatorAssignment` — global
engine-setting overrides, per-table scan operators and per-join-set join
operators, all insertion-ordered dictionaries. -/
structure PhysicalOperatorAssignment where
  global_settings : List (PhysicalOperator × Option Bool)
  scan_operators : List (Table × ScanOperatorAssignment)
  join_operators : List (Finset Table × JoinOperatorAssignment)

/-- Modelled from the spec: `set_join_operator` stores the assignment
under its join's table set.  (The inputs produced by the synopsis walk
always carry a non-empty table set, so the contract check for empty sets
is never triggered here.) -/
def PhysicalOperatorAssignment.set_join_operator
    (asg : PhysicalOperatorAssignment) (joa : JoinOperatorAssignment) :
    PhysicalOperatorAssignment :=
  { asg with join_operators := assocSet asg.join_operators joa.join joa }

/-- The empty `PhysicalOperatorAssignment()`. -/
def PhysicalOperatorAssignment.empty : PhysicalOperatorAssignment :=
  ⟨[], [], []⟩

/-- `QepsNode.recommend_operators` (tonic.py lines 84-103), with
`subquery_recommendation` (lines 119-121) inlined at its single call
site.  The assignment is threaded functionally instead of being mutated
in place.  A sequence headed by a base-table node (on which the source's
`next_join.left_child` would fail — `_iterate_join_tree` never produces
one) leaves the assignment as already built. -/
def QepsNode.recommend_operators (n : QepsNode) (query : SqlQuery) :
    List JoinTreeNode → PhysicalOperatorAssignment → PhysicalOperatorAssignment
  | [], current_assignment => current_assignment
  | next_join :: remaining_joins, current_assignment =>
    let asg1 := match n.current_recommendation with
      | some recommendation =>
          current_assignment.set_join_operator ⟨recommendation, next_join.tables⟩
      | none => current_assignment
    match next_join with
    | .base _ _ => asg1
    | .joinNode next_node _ _ =>
      match next_node with
      | .base t _ =>
        let child_node := n.getChild (n.make_identifier query t)
        child_node.recommend_operators query remaining_joins asg1
      | .joinNode sq_left sq_right sq_bound =>
        let subquery_tree := JoinTreeNode.joinNode sq_left sq_right sq_bound
        let subquery_node := n.getChild ⟨subquery_tree.tables, none⟩
        let asg2 := (subquery_node.subquery_root).recommend_operators query
          (iterateJoinTree subquery_tree) asg1
        subquery_node.recommend_operators query remaining_joins asg2
termination_by seq asg => (seq.map jtWeight).sum
decreasing_by
  all_goals simp only [List.map_cons, List.sum_cons]
  · simp only [jtWeight]
    omega
  · have hsum : ∀ t : JoinTreeNode,
        ((iterateJoinTree t).map jtWeight).sum = jtSpineWeight t := by
      intro t
      induction t with
      | base tab b => simp [iterateJoinTree, jtSpineWeight]
      | joinNode l r b ihl ihr =>
        simp [iterateJoinTree, jtSpineWeight, jtWeight, ihr]
    simp only [hsum, jtWeight]
    omega
  · simp only [jtWeight]
    omega

/-- The synopsis nodes the `recommend_operators` walk visits, paired with
the join-sequence element each one handles at its step; this mirrors the
recursion of `QepsNode.recommend_operators` exactly (which nodes are
visited does not depend on the assignment being built, so the assignment
argument is dropped). -/
def QepsNode.recommendVisited (n : QepsNode) (query : SqlQuery) :
    List JoinTreeNode → List (QepsNode × JoinTreeNode)
  | [] => []
  | next_join :: remaining_joins =>
    (n, next_join) ::
      match next_join with
      | .base _ _ => []
      | .joinNode next_node _ _ =>
        match next_node with
        | .base t _ =>
          (n.getChild (n.make_identifier query t)).recommendVisited query
            remaining_joins
        | .joinNode sq_left sq_right sq_bound =>
          let subquery_tree := JoinTreeNode.joinNode sq_left sq_right sq_bound
          let subquery_node := n.getChild ⟨subquery_tree.tables, none⟩
          (subquery_node.subquery_root).recommendVisited query
              (iterateJoinTree subquery_tree)
            ++ subquery_node.recommendVisited query remaining_joins
termination_by seq => (seq.map jtWeight).sum
decreasing_by
  all_goals simp only [List.map_cons, List.sum_cons]
  · simp only [jtWeight]
    omega
  · have hsum : ∀ t : JoinTreeNode,
        ((iterateJoinTree t).map jtWeight).sum = jtSpineWeight t := by
      intro t
      induction t with
      | base tab b => simp [iterateJoinTree, jtSpineWeight]
      | joinNode l r b ihl ihr =>
        simp [iterateJoinTree, jtSpineWeight, jtWeight, ihr]
    simp only [hsum, jtWeight]
    omega
  · simp only [jtWeight]
    omega

/-- `QueryExecutionPlanSynopsis` (tonic.py lines 184-204): owns the root
node. -/
structure QueryExecutionPlanSynopsis where
  root : QepsNode

/-- `QueryExecutionPlanSynopsis.create`. -/
def QueryExecutionPlanSynopsis.create (filter_aware : Bool) (gamma : ℚ) :
    QueryExecutionPlanSynopsis :=
  ⟨.mk filter_aware gamma [] [] none⟩

/-- `QueryExecutionPlanSynopsis.recommend_operators` (tonic.py lines
193-198) for a logical join tree: the walk is seeded with a fresh empty
assignment (the pre-filled branch applies only to physical plans). -/
def QueryExecutionPlanSynopsis.recommend_operators
    (s : QueryExecutionPlanSynopsis) (query : SqlQuery)
    (join_order : JoinTreeNode) : PhysicalOperatorAssignment :=
  s.root.recommend_operators query (iterateJoinTree join_order)
    PhysicalOperatorAssignment.empty

/-- Modelled from the spec: `db.QueryExecutionPlan` — a native
execution-plan node exposing whether it is a scan or a join, its ordered
children, an outer/inner distinction when available (`inner_first` tells
which of the two children is the inner one), its table (if resolvable),
its chosen physical operator and a numeric cost.  The `db` module is not
among the sources. -/
inductive Plan where
  | node (is_scan : Bool) (is_join : Bool)
         (children : List Plan)
         (inner_first : Option Bool)
         (table : Option Table)
         (physical_operator : Option PhysicalOperator)
         (cost : PyFloat)

namespace Plan

def is_scan : Plan → Bool
  | .node s _ _ _ _ _ _ => s

def is_join : Plan → Bool
  | .node _ j _ _ _ _ _ => j

def children : Plan → List Plan
  | .node _ _ cs _ _ _ _ => cs

def inner_first : Plan → Option Bool
  | .node _ _ _ inf _ _ _ => inf

def table : Plan → Option Table
  | .node _ _ _ _ t _ _ => t

def physical_operator : Plan → Option PhysicalOperator
  | .node _ _ _ _ _ op _ => op

def cost : Plan → PyFloat
  | .node _ _ _ _ _ _ c => c

/-- `inner_child`: the child marked as the inner/build side, when the
distinction is available. -/
def inner_child (p : Plan) : Option Plan :=
  match p.inner_first with
  | some true => p.children.get? 0
  | some false => p.children.get? 1
  | none => none

/-- `outer_child`: the child on the other side of the marked inner one. -/
def outer_child (p : Plan) : Option Plan :=
  match p.inner_first with
  | some true => p.children.get? 1
  | some false => p.children.get? 0
  | none => none

/-- `current_node.inner_child if current_node.inner_child else
current_node.children[1]` (tonic.py line 28); `none` when Python would
raise an IndexError. -/
def resolveRight (p : Plan) : Option Plan :=
  match p.inner_child with
  | some c => some c
  | none => p.children.get? 1

/-- `next_node.outer_child if next_node.outer_child else
next_node.children[0]` (tonic.py lines 113 and 167); `none` when Python
would raise an IndexError. -/
def resolveOuter (p : Plan) : Option Plan :=
  match p.outer_child with
  | some c => some c
  | none => p.children.get? 0

end Plan

/-- Modelled from the spec: the table set of a plan subtree (the tables
of all its nodes). -/
def planTables : Plan → Finset Table
  | .node _ _ cs _ tab _ _ =>
    (match tab with | some t => ({t} : Finset Table) | none => ∅) ∪ planTablesList cs
  where planTablesList : List Plan → Finset Table
    | [] => ∅
    | p :: ps => planTables p ∪ planTablesList ps

/-- `_iterate_query_plan` (tonic.py lines 22-29): scans yield nothing; a
single-child pass-through node is skipped over (the source asserts it has
exactly one child); a join yields the linearization of its right (inner)
child followed by the node itself.  Errors replace Python's
AssertionError and IndexError. -/
def iterateQueryPlan (p : Plan) : Except String (List Plan) :=
    if p.is_scan then .ok []
    else if !p.is_join then
      match hc : p.children with
      | [only_child] => iterateQueryPlan only_child
      | _ => .error "assertion failed: len(current_node.children) == 1"
    else
      match hr : p.resolveRight with
      | some right_child =>
        match iterateQueryPlan right_child with
        | .error e => .error e
        | .ok seq => .ok (seq ++ [p])
      | none => .error "IndexError: list index out of range"
termination_by sizeOf p
decreasing_by
  · have hm : only_child ∈ p.children := by
      rw [hc]
      exact List.mem_singleton.mpr rfl
    have h1 := List.sizeOf_lt_of_mem hm
    have h2 : sizeOf p.children < sizeOf p := by
      cases p with
      | node a b cs inf t o c =>
        simp only [Plan.children]
        simp
        omega
    omega
  · have hm : right_child ∈ p.children := by
      unfold Plan.resolveRight Plan.inner_child at hr
      cases hinf : p.inner_first with
      | none =>
        rw [hinf] at hr
        simp only at hr
        exact List.get?_mem hr
      | some b =>
        rw [hinf] at hr
        cases b with
        | true =>
          simp only at hr
          cases hz : p.children.get? 0 with
          | some c0 =>
            rw [hz] at hr
            simp only [Option.some.injEq] at hr
            subst hr
            exact List.get?_mem hz
          | none =>
            rw [hz] at hr
            simp only at hr
            exact List.get?_mem hr
        | false =>
          simp only at hr
          cases hz : p.children.get? 1 with
          | some c1 =>
            rw [hz] at hr
            simp only [Option.some.injEq] at hr
            subst hr
            exact List.get?_mem hz
          | none =>
            rw [hz] at hr
            simp at hr
    have h1 := List.sizeOf_lt_of_mem hm
    have h2 : sizeOf p.children < sizeOf p := by
      cases p with
      | node a b cs inf t o c =>
        simp only [Plan.children]
        simp
        omega
    omega

mutual

/-- Termination measure: the weight of the node sequence that
`_iterate_query_plan` produces for a plan subtree (mutually defined with
the weights contributed by the resolved child nodes). -/
def planSpineWeight (p : Plan) : Nat :=
  if p.is_scan then 0
  else if !p.is_join then planChildWeight p
  else planRightWeight p + planOuterWeight p + 1
termination_by (sizeOf p, 1)

/-- Weight contributed by the sole child of a pass-through node. -/
def planChildWeight (p : Plan) : Nat :=
  match hc : p.children with
  | [only_child] => planSpineWeight only_child
  | _ => 0
termination_by (sizeOf p, 0)
decreasing_by
  apply Prod.Lex.left
  have hm : only_child ∈ p.children := by
    rw [hc]
    exact List.mem_singleton.mpr rfl
  have h1 := List.sizeOf_lt_of_mem hm
  have h2 : sizeOf p.children < sizeOf p := by
    cases p with
    | node a b cs inf t o c =>
      simp only [Plan.children]
      simp
      omega
  omega

/-- Weight contributed by the resolved right (inner) child of a join. -/
def planRightWeight (p : Plan) : Nat :=
  match hr : p.resolveRight with
  | some right_child => planSpineWeight right_child
  | none => 0
termination_by (sizeOf p, 0)
decreasing_by
  apply Prod.Lex.left
  have hm : right_child ∈ p.children := by
    unfold Plan.resolveRight Plan.inner_child at hr
    cases hinf : p.inner_first with
    | none =>
      rw [hinf] at hr
      simp only at hr
      exact List.get?_mem hr
    | some b =>
      rw [hinf] at hr
      cases b with
      | true =>
        simp only at hr
        cases hz : p.children.get? 0 with
        | some c0 =>
          rw [hz] at hr
          simp only [Option.some.injEq] at hr
          subst hr
          exact List.get?_mem hz
        | none =>
          rw [hz] at hr
          simp only at hr
          exact List.get?_mem hr
      | false =>
        simp only at hr
        cases hz : p.children.get? 1 with
        | some c1 =>
          rw [hz] at hr
          simp only [Option.some.injEq] at hr
          subst hr
          exact List.get?_mem hz
        | none =>
          rw [hz] at hr
          simp at hr
  have h1 := List.sizeOf_lt_of_mem hm
  have h2 : sizeOf p.children < sizeOf p := by
    cases p with
    | node a b cs inf t o c =>
      simp only [Plan.children]
      simp
      omega
  omega

/-- Weight contributed by the resolved outer child of a node. -/
def planOuterWeight (p : Plan) : Nat :=
  match ho : p.resolveOuter with
  | some outer_node => planSpineWeight outer_node
  | none => 0
termination_by (sizeOf p, 0)
decreasing_by
  apply Prod.Lex.left
  have hm : outer_node ∈ p.children := by
    unfold Plan.resolveOuter Plan.outer_child at ho
    cases hinf : p.inner_first with
    | none =>
      rw [hinf] at ho
      simp only at ho
      exact List.get?_mem ho
    | some b =>
      rw [hinf] at ho
      cases b with
      | true =>
        simp only at ho
        cases hz : p.children.get? 1 with
        | some c1 =>
          rw [hz] at ho
          simp only [Option.some.injEq] at ho
          subst ho
          exact List.get?_mem hz
        | none =>
          rw [hz] at ho
          simp only at ho
          exact List.get?_mem ho
      | false =>
        simp only at ho
        cases hz : p.children.get? 0 with
        | some c0 =>
          rw [hz] at ho
          simp only [Option.some.injEq] at ho
          subst ho
          exact List.get?_mem hz
        | none =>
          rw [hz] at ho
          simp at ho
  have h1 := List.sizeOf_lt_of_mem hm
  have h2 : sizeOf p.children < sizeOf p := by
    cases p with
    | node a b cs inf t o c =>
      simp only [Plan.children]
      simp
      omega
  omega

end

/-- Weight of one element of a linearized plan sequence: one step plus the
spine weight of the outer child the cost integration may recurse into. -/
def planWeight (p : Plan) : Nat :=
  1 + planOuterWeight p

/-- `QepsNode.integrate_costs` (tonic.py lines 105-117) together with its
helpers `_integrate_base_join_costs` (lines 154-161),
`_integrate_subquery_join_costs` (lines 163-170) and
`integrate_subquery_costs` (lines 123-124) inlined; the separately named
helper definitions below restate the corresponding branches.  The node is
threaded functionally and a `.error` result models a raised exception.
The source's branch for a non-join head element recurses into the
remaining nodes WITHOUT returning and afterwards still dispatches on the
non-join head; this is translated faithfully. -/
def QepsNode.integrate_costs (n : QepsNode) (query : SqlQuery)
    (query_plan : List Plan) : Except String QepsNode :=
  match query_plan with
  | [] => .ok n
  | next_node :: remaining_nodes =>
    match (if !next_node.is_join
           then n.integrate_costs query remaining_nodes
           else .ok n) with
    | .error e => .error e
    | .ok n1 =>
      match n1, next_node.resolveOuter with
      | n1, none => .error "IndexError: list index out of range"
      | n1, some child_node =>
        if child_node.is_scan then
          match next_node.table, next_node.physical_operator, next_node.cost with
          | some t, some op, .val c =>
            let child_identifier := n1.make_identifier query t
            let child := (n1.getChild child_identifier).update_costs op c
            match child.integrate_costs query remaining_nodes with
            | .error e => .error e
            | .ok child2 => .ok (n1.setChild child_identifier child2)
          | _, _, _ =>
            .error "Plan node for QEP-S update must contain table, operator and cost"
        else if child_node.is_join then
          match next_node.table, next_node.physical_operator, next_node.cost with
          | some _, some _, .val _ =>
            match hOuter : next_node.resolveOuter with
            | none => .error "IndexError: list index out of range"
            | some subquery_plan_node =>
              let ident := QepsIdentifier.mk (planTables subquery_plan_node) none
              let subquery_qeps_node := n1.getChild ident
              match hIter : iterateQueryPlan subquery_plan_node with
              | .error e => .error e
              | .ok subquery_sequence =>
                match (subquery_qeps_node.subquery_root).integrate_costs
                    query subquery_sequence with
                | .error e => .error e
                | .ok new_subroot =>
                  match (subquery_qeps_node.setSubqueryRoot
                      new_subroot).integrate_costs query remaining_nodes with
                  | .error e => .error e
                  | .ok sub2 => .ok (n1.setChild ident sub2)
          | _, _, _ =>
            .error "Plan node for QEP-S update must contain table, operator and cost"
        else .ok n1
termination_by (query_plan.map planWeight).sum
decreasing_by
  · simp only [List.map_cons, List.sum_cons, planWeight]
    omega
  · simp only [List.map_cons, List.sum_cons, planWeight]
    omega
  · have hbound : ∀ (N : Nat) (q : Plan) (l : List Plan), sizeOf q ≤ N →
        iterateQueryPlan q = .ok l →
        (l.map planWeight).sum ≤ planSpineWeight q := by
      intro N
      induction N with
      | zero =>
        intro q l hq
        exfalso
        cases q with
        | node a b cs inf t o c =>
          simp at hq
      | succ N ih =>
        intro q l hq hl
        unfold iterateQueryPlan at hl
        by_cases hscan : q.is_scan = true
        · rw [if_pos hscan] at hl
          simp only [Except.ok.injEq] at hl
          subst hl
          simp
        · rw [if_neg hscan] at hl
          by_cases hjoin : (!q.is_join) = true
          · rw [if_pos hjoin] at hl
            have hWq : planSpineWeight q = planChildWeight q := by
              unfold planSpineWeight
              rw [if_neg hscan, if_pos hjoin]
            cases hc : q.children with
            | nil =>
              rw [hc] at hl
              simp at hl
            | cons hd tl =>
              cases tl with
              | nil =>
                rw [hc] at hl
                simp only at hl
                have hm : hd ∈ q.children := by
                  rw [hc]
                  exact List.mem_singleton.mpr rfl
                have hsz : sizeOf hd ≤ N := by
                  have h1 := List.sizeOf_lt_of_mem hm
                  have h2 : sizeOf q.children < sizeOf q := by
                    cases q with
                    | node a b cs inf t o c =>
                      simp only [Plan.children]
                      simp
                      omega
                  omega
                have hrec := ih hd l hsz hl
                have hCW : planChildWeight q = planSpineWeight hd := by
                  unfold planChildWeight
                  split
                  · rename_i oc heq
                    rw [hc] at heq
                    injection heq with h1 h2
                    rw [h1]
                  · rename_i hno
                    exact absurd hc (by
                      intro hcc
                      exact hno hd hcc)
                omega
              | cons hd2 tl2 =>
                rw [hc] at hl
                simp at hl
          · rw [if_neg hjoin] at hl
            have hWq : planSpineWeight q
                = planRightWeight q + planOuterWeight q + 1 := by
              unfold planSpineWeight
              rw [if_neg hscan, if_neg hjoin]
            cases hr : q.resolveRight with
            | none =>
              rw [hr] at hl
              simp at hl
            | some right_child =>
              rw [hr] at hl
              simp only at hl
              cases hit : iterateQueryPlan right_child with
              | error e =>
                rw [hit] at hl
                simp at hl
              | ok seq =>
                rw [hit] at hl
                simp only [Except.ok.injEq] at hl
                subst hl
                have hm : right_child ∈ q.children := by
                  unfold Plan.resolveRight Plan.inner_child at hr
                  cases hinf : q.inner_first with
                  | none =>
                    rw [hinf] at hr
                    simp only at hr
                    exact List.get?_mem hr
                  | some b =>
                    rw [hinf] at hr
                    cases b with
                    | true =>
                      simp only at hr
                      cases hz : q.children.get? 0 with
                      | some c0 =>
                        rw [hz] at hr
                        simp only [Option.some.injEq] at hr
                        subst hr
                        exact List.get?_mem hz
                      | none =>
                        rw [hz] at hr
                        simp only at hr
                        exact List.get?_mem hr
                    | false =>
                      simp only at hr
                      cases hz : q.children.get? 1 with
                      | some c1 =>
                        rw [hz] at hr
                        simp only [Option.some.injEq] at hr
                        subst hr
                        exact List.get?_mem hz
                      | none =>
                        rw [hz] at hr
                        simp at hr
                have hsz : sizeOf right_child ≤ N := by
                  have h1 := List.sizeOf_lt_of_mem hm
                  have h2 : sizeOf q.children < sizeOf q := by
                    cases q with
                    | node a b cs inf t o c =>
                      simp only [Plan.children]
                      simp
                      omega
                  omega
                have hrec := ih right_child seq hsz hit
                have hRW : planRightWeight q = planSpineWeight right_child := by
                  unfold planRightWeight
                  split
                  · rename_i rc heq
                    rw [hr] at heq
                    injection heq with h1
                    rw [h1]
                  · rename_i heq
                    rw [hr] at heq
                    exact Option.noConfusion heq
                rw [List.map_append, List.sum_append]
                simp only [List.map_cons, List.map_nil, List.sum_cons,
                  List.sum_nil, planWeight]
                omega
    have hseq := hbound (sizeOf subquery_plan_node) subquery_plan_node
      subquery_sequence (Nat.le_refl _) hIter
    have hOW : planOuterWeight p = planSpineWeight subquery_plan_node := by
      unfold planOuterWeight
      split
      · rename_i oc heq
        rw [hOuter] at heq
        injection heq with h1
        rw [h1]
      · rename_i heq
        rw [hOuter] at heq
        exact Option.noConfusion heq
    simp only [List.map_cons, List.sum_cons, planWeight]
    omega
  · simp only [List.map_cons, List.sum_cons, planWeight]
    omega

/-- `QepsNode._integrate_base_join_costs` (tonic.py lines 154-161): raises
unless the node carries a table, an operator and a numeric (non-NaN)
cost; then updates the child's cost entry and recurses. -/
def QepsNode._integrate_base_join_costs (n : QepsNode) (query : SqlQuery)
    (current_node : Plan) (remaining_nodes : List Plan) : Except String QepsNode :=
  match current_node.table, current_node.physical_operator, current_node.cost with
  | some t, some op, .val c =>
    let child_identifier := n.make_identifier query t
    let child := (n.getChild child_identifier).update_costs op c
    match child.integrate_costs query remaining_nodes with
    | .error e => .error e
    | .ok child2 => .ok (n.setChild child_identifier child2)
  | _, _, _ =>
    .error "Plan node for QEP-S update must contain table, operator and cost"

/-- `QepsNode.integrate_subquery_costs` (tonic.py lines 123-124). -/
def QepsNode.integrate_subquery_costs (n : QepsNode) (query : SqlQuery)
    (query_plan : Plan) : Except String QepsNode :=
  match iterateQueryPlan query_plan with
  | .error e => .error e
  | .ok seq =>
    match (n.subquery_root).integrate_costs query seq with
    | .error e => .error e
    | .ok new_subroot => .ok (n.setSubqueryRoot new_subroot)

/-- `QepsNode._integrate_subquery_join_costs` (tonic.py lines 163-170). -/
def QepsNode._integrate_subquery_join_costs (n : QepsNode) (query : SqlQuery)
    (current_node : Plan) (remaining_nodes : List Plan) : Except String QepsNode :=
  match current_node.table, current_node.physical_operator, current_node.cost with
  | some _, some _, .val _ =>
    match current_node.resolveOuter with
    | none => .error "IndexError: list index out of range"
    | some subquery_plan_node =>
      let ident := QepsIdentifier.mk (planTables subquery_plan_node) none
      let subquery_qeps_node := n.getChild ident
      match subquery_qeps_node.integrate_subquery_costs query subquery_plan_node with
      | .error e => .error e
      | .ok sq1 =>
        match sq1.integrate_costs query remaining_nodes with
        | .error e => .error e
        | .ok sub2 => .ok (n.setChild ident sub2)
  | _, _, _ =>
    .error "Plan node for QEP-S update must contain table, operator and cost"

/-- The dispatch part of `QepsNode.integrate_costs` (tonic.py lines
113-117): resolve the head node's outer child and hand off to the scan or
subquery integration helper; a child that is neither scan nor join falls
through with no update. -/
def QepsNode.integrate_dispatch (n : QepsNode) (query : SqlQuery)
    (next_node : Plan) (remaining_nodes : List Plan) : Except String QepsNode :=
  match next_node.resolveOuter with
  | none => .error "IndexError: list index out of range"
  | some child_node =>
    if child_node.is_scan then
      n._integrate_base_join_costs query next_node remaining_nodes
    else if child_node.is_join then
      n._integrate_subquery_join_costs query next_node remaining_nodes
    else .ok n

/-- `QueryExecutionPlanSynopsis.integrate_costs` (tonic.py lines 200-201). -/
def QueryExecutionPlanSynopsis.integrate_costs (s : QueryExecutionPlanSynopsis)
    (query : SqlQuery) (query_plan : Plan) :
    Except String QueryExecutionPlanSynopsis :=
  match iterateQueryPlan query_plan with
  | .error e => .error e
  | .ok seq =>
    match s.root.integrate_costs query seq with
    | .error e => .error e
    | .ok root2 => .ok ⟨root2⟩

/-- A sequence of feedback observations applied to a synopsis in order
(each a `integrate_costs(query, executionPlan)` call). -/
def applyFeedback : QueryExecutionPlanSynopsis → List (SqlQuery × Plan) →
    Except String QueryExecutionPlanSynopsis
  | s, [] => .ok s
  | s, (query, query_plan) :: rest =>
    match s.integrate_costs query query_plan with
    | .error e => .error e
    | .ok s2 => applyFeedback s2 rest

/-- `HintParts` (mysql.py lines 286-304): ordered settings and ordered
inline hints. -/
structure HintParts where
  settings : List String
  hints : List String
  deriving DecidableEq, Repr

/-- `HintParts.empty` (mysql.py lines 292-295). -/
def HintParts.empty : HintParts := ⟨[], []⟩

/-- `HintParts.merge_with` (mysql.py lines 297-304): the receiver's
elements followed by the other's elements not already present
(order-preserving deduplication by exact string match). -/
def HintParts.merge_with (self other : HintParts) : HintParts :=
  ⟨self.settings ++ other.settings.filter (fun s => !(self.settings.contains s)),
   self.hints ++ other.hints.filter (fun h => !(self.hints.contains h))⟩

/-- `MysqlOptimizerSettings` (mysql.py lines 260-264) as a partial lookup:
`none` models the KeyError a missing key raises. -/
def MysqlOptimizerSettings : PhysicalOperator → Option String
  | .join .IndexMergeJoin => some "index_merge"
  | .join .BlockNestedLoopJoin => some "block_nested_loop"
  | .join .HashJoin => some "hash_join"
  | _ => none

/-- `MysqlOptimizerHints` (mysql.py lines 267-274) as a partial lookup. -/
def MysqlOptimizerHints : PhysicalOperator → Option String
  | .join .BlockNestedLoopJoin => some "BNL"
  | .join .IndexMergeJoin => some "INDEX_MERGE"
  | .join .IndexJoin => some "INDEX"
  | .join .MergeJoin => some "MERGE"
  | .scan .IndexScan => some "INDEX_SCAN"
  | .join .HashJoin => some "HASH_JOIN"
  | _ => none

/-- `_generate_join_key` (mysql.py lines 306-308).  A Python frozenset's
iteration order is interpreter-dependent; the embedding renders the
tables in sorted order (no claim depends on the chosen order). -/
def _generate_join_key (tables : Finset Table) : String :=
  String.intercalate ", " (tables.sort (· ≤ ·))

/-- The `global_settings` loop of `_generate_mysql_operator_hints`
(mysql.py lines 314-321). -/
def genGlobalSettings : List (PhysicalOperator × Option Bool) →
    Except String (List String)
  | [] => .ok []
  | (operator, enabled) :: rest =>
    let setting := match enabled with
      | none => "default"
      | some true => "on"
      | some false => "off"
    match MysqlOptimizerSettings operator with
    | none => .error "KeyError"
    | some operator_key =>
      match genGlobalSettings rest with
      | .error e => .error e
      | .ok tail =>
        .ok (("SET optimizer_switch='" ++ operator_key ++ "=" ++ setting ++ "';") :: tail)

/-- The `scan_operators` loop of `_generate_mysql_operator_hints`
(mysql.py lines 323-327). -/
def genScanHints : List (Table × ScanOperatorAssignment) →
    Except String (List String)
  | [] => .ok []
  | (tab, scan_assignment) :: rest =>
    match MysqlOptimizerHints (.scan scan_assignment.operator) with
    | none => .error "KeyError"
    | some hint_name =>
      match genScanHints rest with
      | .error e => .error e
      | .ok tail => .ok ((hint_name ++ "(" ++ tab ++ ")") :: tail)

/-- The `join_operators` loop of `_generate_mysql_operator_hints`
(mysql.py lines 331-334). -/
def genJoinHints : List (Finset Table × JoinOperatorAssignment) →
    Except String (List String)
  | [] => .ok []
  | (join, join_assignment) :: rest =>
    match MysqlOptimizerHints join_assignment.operator with
    | none => .error "KeyError"
    | some hint_name =>
      match genJoinHints rest with
      | .error e => .error e
      | .ok tail => .ok ((hint_name ++ "(" ++ _generate_join_key join ++ ")") :: tail)

/-- `_generate_mysql_operator_hints` (mysql.py lines 312-339): settings,
scan hints (followed by an empty separator line when any exist), join
hints; an operator absent from the lookup tables raises. -/
def _generate_mysql_operator_hints
    (physical_operators : PhysicalOperatorAssignment) : Except String HintParts :=
  match genGlobalSettings physical_operators.global_settings with
  | .error e => .error e
  | .ok settings =>
    match genScanHints physical_operators.scan_operators with
    | .error e => .error e
    | .ok scan_hints =>
      let hints0 := if scan_hints.isEmpty then scan_hints else scan_hints ++ [""]
      match genJoinHints physical_operators.join_operators with
      | .error e => .error e
      | .ok join_hints =>
        let hints := hints0 ++ join_hints
        if settings.isEmpty && hints.isEmpty then .ok HintParts.empty
        else .ok ⟨settings, hints⟩

/-- Modelled from the spec: `planmeta.PlanParameterization` (the
`planmeta` module is not among the sources) — per-table index hints (the
table key may be unbound), explicit join-order hints and cardinality
hints, all insertion-ordered. -/
structure PlanParameterization where
  index_hints : List (Option Table × List String)
  join_order_hints : List (List Table)
  cardinality_hints : List (Finset Table × Nat)

/-- An empty `PlanParameterization()`. -/
def PlanParameterization.empty : PlanParameterization := ⟨[], [], []⟩

/-- The `index_hints` loop of `_generate_mysql_index_hints` (mysql.py
lines 346-354): one FORCE_INDEX directive per entry with a non-empty
index list (the inner loop breaks after its first iteration). -/
def genIndexHints : List (Option Table × List String) → List String
  | [] => []
  | (tab, index_list) :: rest =>
    match index_list with
    | [] => genIndexHints rest
    | _ :: _ =>
      (match tab with
       | some t =>
         "FORCE_INDEX(" ++ t ++ " " ++ String.intercalate ", " index_list ++ ")"
       | none =>
         "FORCE_INDEX(" ++ String.intercalate ", " index_list ++ ")")
      :: genIndexHints rest

/-- The `join_order_hints` loop of `_generate_mysql_index_hints`
(mysql.py lines 356-358). -/
def genJoinOrderHints : List (List Table) → List String
  | [] => []
  | tables :: rest =>
    ("JOIN_ORDER(" ++ String.intercalate ", " tables ++ ")") :: genJoinOrderHints rest

/-- `_generate_mysql_index_hints` (mysql.py lines 342-362). -/
def _generate_mysql_index_hints (plan_parameters : PlanParameterization) : HintParts :=
  ⟨[], genIndexHints plan_parameters.index_hints
        ++ genJoinOrderHints plan_parameters.join_order_hints⟩

/-- `clauses.Hint` (qal/clauses.py lines 62-105): preparatory statements
and the inline query-hint text. -/
structure Hint where
  preparatory_statements : String
  query_hints : String
  deriving DecidableEq, Repr

/-- `_generate_hint_block` (mysql.py lines 366-373). -/
def _generate_hint_block (parts : HintParts) : Option Hint :=
  if parts.settings.isEmpty && parts.hints.isEmpty then none
  else
    let settings_block := String.intercalate "\n" parts.settings
    let hints_block :=
      if parts.hints.isEmpty then ""
      else String.intercalate "\n"
        (["/*+"] ++ parts.hints.map (fun h => "  " ++ h) ++ ["*/"])
    some ⟨settings_block, hints_block⟩

/-- Modelled from the spec: `transform.add_clause` (the `transform`
module is not among the sources) attaches the hint clause and leaves all
other clauses unchanged. -/
def add_clause (query : SqlQuery) (hint_block : Hint) : SqlQuery :=
  { query with
    hintText := some (hint_block.preparatory_statements, hint_block.query_hints) }

/-- `_apply_hint_block_to_query` (mysql.py lines 376-378): the query
object itself is returned when there is no hint block. -/
def _apply_hint_block_to_query (query : SqlQuery) (hint_block : Option Hint) :
    SqlQuery :=
  match hint_block with
  | some hb => add_clause query hb
  | none => query

/-- `MysqlHintService.generate_hints` (mysql.py lines 413-432).  The
`join_order` parameter is accepted but never used: line 418 of the source
is a bare expression statement and no join-order rendering stage exists;
`hint_parts` starts as `None` and is immediately replaced by the empty
hint parts. -/
def MysqlHintService.generate_hints (query : SqlQuery)
    (join_order : Option JoinTreeNode)
    (physical_operators : Option PhysicalOperatorAssignment)
    (plan_parameters : Option PlanParameterization) : Except String SqlQuery :=
  let hint_parts := HintParts.empty
  let operator_stage : Except String HintParts :=
    match physical_operators with
    | some phys =>
      match _generate_mysql_operator_hints phys with
      | .error e => .error e
      | .ok operator_hints => .ok (hint_parts.merge_with operator_hints)
    | none => .ok hint_parts
  match operator_stage with
  | .error e => .error e
  | .ok hint_parts2 =>
    let hint_parts3 := match plan_parameters with
      | some pp => hint_parts2.merge_with (_generate_mysql_index_hints pp)
      | none => hint_parts2
    let hint_block := _generate_hint_block hint_parts3
    .ok (_apply_hint_block_to_query query hint_block)

/-- A concrete query used for concrete evaluations: no filters, no hint
clause. -/
def sampleQuery : SqlQuery := ⟨fun _ => none, none, "SELECT * FROM R, S"⟩

/-- The two-table join tree R ⋈ S with upper bounds 100 and 10000 and no
directional annotation. -/
def sampleTreeRS : JoinTreeNode :=
  .joinNode (.base "R" (some 100)) (.base "S" (some 10000)) none

/-- A concrete scan-plan leaf over table R. -/
def sampleScanR : Plan :=
  .node true false [] none (some "R") (some (.scan .SeqScan)) (.val 1)

/-- A concrete scan-plan leaf over table S. -/
def sampleScanS : Plan :=
  .node true false [] none (some "S") (some (.scan .SeqScan)) (.val 1)

/-- A concrete join-plan node over the two scans, hash join, cost 10. -/
def sampleJoinRS : Plan :=
  .node false true [sampleScanR, sampleScanS] none (some "S")
    (some (.join .HashJoin)) (.val 10)

/-- A malformed join-plan node: no table, no operator, NaN cost. -/
def sampleBadJoin : Plan :=
  .node false true [sampleScanR, sampleScanS] none none none .nan

theorem assocLookup_assocSet_self {κ α : Type} [DecidableEq κ]
    (l : List (κ × α)) (k : κ) (v : α) :
    assocLookup (assocSet l k v) k = some v := by
  induction l with
  | nil => simp [assocSet, assocLookup]
  | cons e rest ih =>
    obtain ⟨k1, v1⟩ := e
    by_cases h : k = k1 <;> simp [assocSet, assocLookup, h, ih]

theorem assocLookup_assocSet_ne {κ α : Type} [DecidableEq κ]
    (l : List (κ × α)) (k k' : κ) (v : α) (h : k' ≠ k) :
    assocLookup (assocSet l k v) k' = assocLookup l k' := by
  induction l with
  | nil => simp [assocSet, assocLookup, h]
  | cons e rest ih =>
    obtain ⟨k1, v1⟩ := e
    by_cases h1 : k = k1
    · subst h1
      simp [assocSet, assocLookup, h]
    · by_cases h2 : k' = k1 <;> simp [assocSet, assocLookup, h1, h2, ih]

/-- C1 — `QepsNode.update_costs` implements the decay law
`cost_new = observed + gamma * cost_old` with an absent entry read as 0;
consequently, two observations `c1` then `c2` for the same operator at a
node that had no entry for it leave exactly `c2 + gamma * c1` stored. -/
theorem tonic_update_costs_decay (n : QepsNode) (operator : PhysicalOperator)
    (c1 c2 : ℚ) :
    assocLookup (n.update_costs operator c1).operator_costs operator
      = some (c1 + n.gamma * ((assocLookup n.operator_costs operator).getD 0))
    ∧ (assocLookup n.operator_costs operator = none →
        assocLookup
          ((n.update_costs operator c1).update_costs operator c2).operator_costs
          operator
        = some (c2 + n.gamma * c1)) := by
  cases n with
  | mk fa g oc cn sq =>
    constructor
    · simp [QepsNode.update_costs, QepsNode.operator_costs, QepsNode.gamma,
        assocLookup_assocSet_self]
    · intro h
      simp only [QepsNode.operator_costs] at h
      simp [QepsNode.update_costs, QepsNode.operator_costs, QepsNode.gamma,
        assocLookup_assocSet_self, h]

/-- Witness for C1 at gamma = 4/5, costs 50 then 10. -/
theorem tonic_update_costs_decay_witness :
    assocLookup (QepsNode.mk false (4/5) [] [] none).operator_costs
      (.join .HashJoin) = none
    ∧ assocLookup
        (((QepsNode.mk false (4/5) [] [] none).update_costs (.join .HashJoin) 50
           ).update_costs (.join .HashJoin) 10).operator_costs (.join .HashJoin)
      = some (10 + (4/5 : ℚ) * 50) :=
  ⟨rfl, (tonic_update_costs_decay (QepsNode.mk false (4/5) [] [] none)
          (.join .HashJoin) 50 10).2 rfl⟩

/-- C4 — `_iterate_join_tree` linearizes a tree right-subtree first:
A ⋈ (B ⋈ C) yields [join(B,C), join(A,(B,C))], and a base-table leaf
yields the empty sequence. -/
theorem tonic_iterate_join_tree_order (tA tB tC : Table)
    (bA bB bC bBC bABC : Option ℚ) :
    iterateJoinTree
      (.joinNode (.base tA bA) (.joinNode (.base tB bB) (.base tC bC) bBC) bABC)
      = [.joinNode (.base tB bB) (.base tC bC) bBC,
         .joinNode (.base tA bA)
           (.joinNode (.base tB bB) (.base tC bC) bBC) bABC]
    ∧ ∀ (t : Table) (b : Option ℚ), iterateJoinTree (.base t b) = [] := by
  constructor
  · simp [iterateJoinTree]
  · intro t b
    simp [iterateJoinTree]

theorem list_filter_not_contains_self (l : List String) :
    l.filter (fun x => !(l.contains x)) = [] := by
  rw [List.filter_eq_nil_iff]
  intro a ha
  simp [ha]

/-- C7 — `HintParts.merge_with` is idempotent: merging hint parts with a
structurally equal copy of themselves changes neither sequence. -/
theorem mysql_hint_parts_merge_idempotent (p : HintParts) :
    p.merge_with p = p := by
  cases p with
  | mk s h =>
    simp only [HintParts.merge_with]
    rw [list_filter_not_contains_self, list_filter_not_contains_self]
    simp

/-- C3 — the MySQL hint compiler never renders a join-order directive:
on the two-table tree R ⋈ S (bounds 100 and 10000) with no operators and
no plan parameters it returns the query unchanged, with no hint clause
attached, instead of emitting the (S R) directive the spec describes. -/
theorem mysql_generate_hints_ignores_join_order :
    MysqlHintService.generate_hints sampleQuery (some sampleTreeRS) none none
      = .ok sampleQuery
    ∧ sampleQuery.hintText = none := by
  constructor
  · rfl
  · rfl

/-- C8 — compiling hints for an empty operator assignment, empty plan
parameterization and empty (absent) join tree returns the input query
unchanged. -/
theorem mysql_generate_hints_empty_inputs_identity (query : SqlQuery) :
    MysqlHintService.generate_hints query none
      (some PhysicalOperatorAssignment.empty) (some PlanParameterization.empty)
      = .ok query := by
  rfl

theorem genGlobalSettings_error_of_absent (l : List (PhysicalOperator × Option Bool))
    (e : PhysicalOperator × Option Bool) (he : e ∈ l)
    (habs : MysqlOptimizerSettings e.1 = none) :
    ∃ msg, genGlobalSettings l = .error msg := by
  induction l with
  | nil => cases he
  | cons hd rest ih =>
    obtain ⟨k, v⟩ := hd
    cases hk : MysqlOptimizerSettings k with
    | none => exact ⟨"KeyError", by simp [genGlobalSettings, hk]⟩
    | some key =>
      have hrest : e ∈ rest := by
        cases he with
        | head => exact absurd habs (by simp [hk])
        | tail _ h => exact h
      obtain ⟨msg, hmsg⟩ := ih hrest
      exact ⟨msg, by simp [genGlobalSettings, hk, hmsg]⟩

theorem genScanHints_error_of_absent (l : List (Table × ScanOperatorAssignment))
    (e : Table × ScanOperatorAssignment) (he : e ∈ l)
    (habs : MysqlOptimizerHints (.scan e.2.operator) = none) :
    ∃ msg, genScanHints l = .error msg := by
  induction l with
  | nil => cases he
  | cons hd rest ih =>
    obtain ⟨k, v⟩ := hd
    cases hk : MysqlOptimizerHints (.scan v.operator) with
    | none => exact ⟨"KeyError", by simp [genScanHints, hk]⟩
    | some key =>
      have hrest : e ∈ rest := by
        cases he with
        | head => exact absurd habs (by simp [hk])
        | tail _ h => exact h
      obtain ⟨msg, hmsg⟩ := ih hrest
      exact ⟨msg, by simp [genScanHints, hk, hmsg]⟩

theorem genJoinHints_error_of_absent (l : List (Finset Table × JoinOperatorAssignment))
    (e : Finset Table × JoinOperatorAssignment) (he : e ∈ l)
    (habs : MysqlOptimizerHints e.2.operator = none) :
    ∃ msg, genJoinHints l = .error msg := by
  induction l with
  | nil => cases he
  | cons hd rest ih =>
    obtain ⟨k, v⟩ := hd
    cases hk : MysqlOptimizerHints v.operator with
    | none => exact ⟨"KeyError", by simp [genJoinHints, hk]⟩
    | some key =>
      have hrest : e ∈ rest := by
        cases he with
        | head => exact absurd habs (by simp [hk])
        | tail _ h => exact h
      obtain ⟨msg, hmsg⟩ := ih hrest
      exact ⟨msg, by simp [genJoinHints, hk, hmsg]⟩

/-- C9 — requesting a directive for a global setting, scan operator or
join operator absent from the MySQL lookup tables makes
`_generate_mysql_operator_hints` raise (a KeyError in the source); the
request is never silently dropped. -/
theorem mysql_operator_hints_unknown_key_raises
    (phys : PhysicalOperatorAssignment)
    (h : (∃ e ∈ phys.global_settings, MysqlOptimizerSettings e.1 = none)
       ∨ (∃ e ∈ phys.scan_operators, MysqlOptimizerHints (.scan e.2.operator) = none)
       ∨ (∃ e ∈ phys.join_operators, MysqlOptimizerHints e.2.operator = none)) :
    ∃ msg, _generate_mysql_operator_hints phys = .error msg := by
  rcases h with ⟨e, he, habs⟩ | ⟨e, he, habs⟩ | ⟨e, he, habs⟩
  · obtain ⟨msg, hmsg⟩ := genGlobalSettings_error_of_absent _ e he habs
    exact ⟨msg, by simp [_generate_mysql_operator_hints, hmsg]⟩
  · obtain ⟨msg, hmsg⟩ := genScanHints_error_of_absent _ e he habs
    cases hg : genGlobalSettings phys.global_settings with
    | error m => exact ⟨m, by simp [_generate_mysql_operator_hints, hg]⟩
    | ok s => exact ⟨msg, by simp [_generate_mysql_operator_hints, hg, hmsg]⟩
  · obtain ⟨msg, hmsg⟩ := genJoinHints_error_of_absent _ e he habs
    cases hg : genGlobalSettings phys.global_settings with
    | error m => exact ⟨m, by simp [_generate_mysql_operator_hints, hg]⟩
    | ok s =>
      cases hs : genScanHints phys.scan_operators with
      | error m => exact ⟨m, by simp [_generate_mysql_operator_hints, hg, hs]⟩
      | ok sc => exact ⟨msg, by simp [_generate_mysql_operator_hints, hg, hs, hmsg]⟩

/-- Witness for C9: a global setting for the nested-loop join, which the
MySQL settings table does not know. -/
theorem mysql_operator_hints_unknown_key_raises_witness :
    ((.join .NestedLoopJoin, some true)
        ∈ (PhysicalOperatorAssignment.mk
            [(.join .NestedLoopJoin, some true)] [] []).global_settings
      ∧ MysqlOptimizerSettings (.join .NestedLoopJoin) = none)
    ∧ ∃ msg, _generate_mysql_operator_hints
        (PhysicalOperatorAssignment.mk [(.join .NestedLoopJoin, some true)] [] [])
        = .error msg :=
  ⟨⟨List.mem_singleton.mpr rfl, rfl⟩,
   mysql_operator_hints_unknown_key_raises
     (PhysicalOperatorAssignment.mk [(.join .NestedLoopJoin, some true)] [] [])
     (Or.inl ⟨(.join .NestedLoopJoin, some true),
       List.mem_singleton.mpr rfl, rfl⟩)⟩

theorem integrate_costs_cons_join (n : QepsNode) (query : SqlQuery)
    (next : Plan) (rest : List Plan) (hj : next.is_join = true) :
    n.integrate_costs query (next :: rest)
      = n.integrate_dispatch query next rest := by
  rw [QepsNode.integrate_costs]
  simp only [hj, Bool.not_true, Bool.false_eq_true, if_false]
  unfold QepsNode.integrate_dispatch
  cases ho : next.resolveOuter with
  | none => simp [ho]
  | some child =>
    simp only [ho]
    by_cases hs : child.is_scan = true
    · simp only [hs, if_true]
      unfold QepsNode._integrate_base_join_costs
      rfl
    · simp only [hs, if_false]
      by_cases hj2 : child.is_join = true
      · simp only [hj2, if_true]
        unfold QepsNode._integrate_subquery_join_costs
          QepsNode.integrate_subquery_costs
        cases ht : next.table with
        | none => rfl
        | some t =>
          cases hop : next.physical_operator with
          | none => rfl
          | some op =>
            cases hcost : next.cost with
            | nan => rfl
            | val c =>
              simp only
              cases ho2 : next.resolveOuter with
              | none =>
                rw [ho] at ho2
                cases ho2
              | some subPlan =>
                rw [ho] at ho2
                injection ho2 with he
                subst he
                cases hit : iterateQueryPlan child with
                | error e => simp [hit]
                | ok seq =>
                  simp only [hit]
                  cases hint : ((QepsNode.getChild n
                      ⟨planTables child, none⟩).subquery_root).integrate_costs
                      query seq with
                  | error e => simp [hint]
                  | ok newRoot => simp [hint]
      · simp only [hj2, if_false]
        rfl

theorem iterate_query_plan_all_joins_aux :
    ∀ (N : Nat) (q : Plan) (l : List Plan), sizeOf q ≤ N →
      iterateQueryPlan q = .ok l → ∀ x ∈ l, x.is_join = true := by
  intro N
  induction N with
  | zero =>
    intro q l hq
    exfalso
    cases q with
    | node a b cs inf t o c => simp at hq
  | succ N ih =>
    intro q l hq hl x hx
    unfold iterateQueryPlan at hl
    by_cases hscan : q.is_scan = true
    · rw [if_pos hscan] at hl
      simp only [Except.ok.injEq] at hl
      subst hl
      cases hx
    · rw [if_neg hscan] at hl
      by_cases hjoin : (!q.is_join) = true
      · rw [if_pos hjoin] at hl
        cases hc : q.children with
        | nil =>
          rw [hc] at hl
          simp at hl
        | cons hd tl =>
          cases tl with
          | nil =>
            rw [hc] at hl
            simp only at hl
            have hm : hd ∈ q.children := by
              rw [hc]
              exact List.mem_singleton.mpr rfl
            have hsz : sizeOf hd ≤ N := by
              have h1 := List.sizeOf_lt_of_mem hm
              have h2 : sizeOf q.children < sizeOf q := by
                cases q with
                | node a b cs inf t o c =>
                  simp only [Plan.children]
                  simp
                  omega
              omega
            exact ih hd l hsz hl x hx
          | cons hd2 tl2 =>
            rw [hc] at hl
            simp at hl
      · rw [if_neg hjoin] at hl
        cases hr : q.resolveRight with
        | none =>
          rw [hr] at hl
          simp at hl
        | some right_child =>
          rw [hr] at hl
          simp only at hl
          cases hit : iterateQueryPlan right_child with
          | error e =>
            rw [hit] at hl
            simp at hl
          | ok seq =>
            rw [hit] at hl
            simp only [Except.ok.injEq] at hl
            subst hl
            rcases List.mem_append.mp hx with hseq | hself
            · have hm : right_child ∈ q.children := by
                unfold Plan.resolveRight Plan.inner_child at hr
                cases hinf : q.inner_first with
                | none =>
                  rw [hinf] at hr
                  simp only at hr
                  exact List.get?_mem hr
                | some b =>
                  rw [hinf] at hr
                  cases b with
                  | true =>
                    simp only at hr
                    cases hz : q.children.get? 0 with
                    | some c0 =>
                      rw [hz] at hr
                      simp only [Option.some.injEq] at hr
                      subst hr
                      exact List.get?_mem hz
                    | none =>
                      rw [hz] at hr
                      simp only at hr
                      exact List.get?_mem hr
                  | false =>
                    simp only at hr
                    cases hz : q.children.get? 1 with
                    | some c1 =>
                      rw [hz] at hr
                      simp only [Option.some.injEq] at hr
                      subst hr
                      exact List.get?_mem hz
                    | none =>
                      rw [hz] at hr
                      simp at hr
              have hsz : sizeOf right_child ≤ N := by
                have h1 := List.sizeOf_lt_of_mem hm
                have h2 : sizeOf q.children < sizeOf q := by
                  cases q with
                  | node a b cs inf t o c =>
                    simp only [Plan.children]
                    simp
                    omega
                omega
              exact ih right_child seq hsz hit x hseq
            · have : x = q := by
                simpa using hself
              subst this
              simpa using hjoin

/-- C10 — every element of the sequence `_iterate_query_plan` produces is
a join node; consequently `integrate_costs` on such a sequence never takes
the non-join head branch: on a join head it equals the dispatch into the
integration helpers directly. -/
theorem tonic_iterate_query_plan_joins_only :
    (∀ (p : Plan) (l : List Plan), iterateQueryPlan p = .ok l →
      ∀ x ∈ l, x.is_join = true)
    ∧ ∀ (n : QepsNode) (query : SqlQuery) (next : Plan) (rest : List Plan),
        next.is_join = true →
        n.integrate_costs query (next :: rest)
          = n.integrate_dispatch query next rest := by
  constructor
  · intro p l hl x hx
    exact iterate_query_plan_all_joins_aux (sizeOf p) p l (Nat.le_refl _) hl x hx
  · intro n query next rest hj
    exact integrate_costs_cons_join n query next rest hj

/-- Witness for C10 on a concrete hash-join plan over two scans. -/
theorem tonic_iterate_query_plan_joins_only_witness :
    (iterateQueryPlan sampleJoinRS = .ok [sampleJoinRS]
     ∧ sampleJoinRS ∈ [sampleJoinRS]
     ∧ sampleJoinRS.is_join = true)
    ∧ (sampleJoinRS.is_join = true
       ∧ (QepsNode.mk false (4/5) [] [] none).integrate_costs sampleQuery
           [sampleJoinRS]
         = (QepsNode.mk false (4/5) [] [] none).integrate_dispatch sampleQuery
             sampleJoinRS []) := by
  have hiter : iterateQueryPlan sampleJoinRS = .ok [sampleJoinRS] := by
    rw [iterateQueryPlan]
    simp [sampleJoinRS, sampleScanR, sampleScanS, Plan.is_scan, Plan.is_join,
      Plan.resolveRight, Plan.inner_child, Plan.inner_first, Plan.children]
    rw [iterateQueryPlan]
    simp [sampleScanS, Plan.is_scan]
  refine ⟨⟨hiter, List.mem_singleton.mpr rfl, ?_⟩, rfl, ?_⟩
  · exact tonic_iterate_query_plan_joins_only.1 sampleJoinRS [sampleJoinRS]
      hiter sampleJoinRS (List.mem_singleton.mpr rfl)
  · exact tonic_iterate_query_plan_joins_only.2 (QepsNode.mk false (4/5) [] [] none)
      sampleQuery sampleJoinRS [] rfl

/-- C5 — a join-plan node lacking a resolvable table, lacking a physical
operator, or carrying a NaN cost makes both cost-integration helpers
raise, and `integrate_costs` itself raises on such a head node whenever
the node is actually dispatched to a helper (its resolved outer child is
a scan or a join; a missing child raises an IndexError instead); the node
is never silently skipped. -/
theorem tonic_integrate_malformed_join_raises (n : QepsNode) (query : SqlQuery)
    (cur : Plan) (rest : List Plan)
    (hbad : cur.table = none ∨ cur.physical_operator = none
          ∨ cur.cost.isnan = true) :
    (∃ m, n._integrate_base_join_costs query cur rest = .error m)
    ∧ (∃ m, n._integrate_subquery_join_costs query cur rest = .error m)
    ∧ (cur.is_join = true →
        (∀ c, cur.resolveOuter = some c → c.is_scan = true ∨ c.is_join = true) →
        ∃ m, n.integrate_costs query (cur :: rest) = .error m) := by
  have hbase : ∃ m, n._integrate_base_join_costs query cur rest = .error m := by
    cases ht : cur.table with
    | none => exact ⟨"Plan node for QEP-S update must contain table, operator and cost", by simp [QepsNode._integrate_base_join_costs, ht]⟩
    | some t =>
      cases hop : cur.physical_operator with
      | none => exact ⟨"Plan node for QEP-S update must contain table, operator and cost", by simp [QepsNode._integrate_base_join_costs, ht, hop]⟩
      | some op =>
        cases hcost : cur.cost with
        | nan =>
          exact ⟨"Plan node for QEP-S update must contain table, operator and cost", by simp [QepsNode._integrate_base_join_costs, ht, hop, hcost]⟩
        | val c =>
          exfalso
          rcases hbad with h | h | h
          · rw [ht] at h
            cases h
          · rw [hop] at h
            cases h
          · rw [hcost] at h
            simp [PyFloat.isnan] at h
  have hsub : ∃ m, n._integrate_subquery_join_costs query cur rest = .error m := by
    cases ht : cur.table with
    | none => exact ⟨"Plan node for QEP-S update must contain table, operator and cost", by simp [QepsNode._integrate_subquery_join_costs, ht]⟩
    | some t =>
      cases hop : cur.physical_operator with
      | none =>
        exact ⟨"Plan node for QEP-S update must contain table, operator and cost", by simp [QepsNode._integrate_subquery_join_costs, ht, hop]⟩
      | some op =>
        cases hcost : cur.cost with
        | nan =>
          exact ⟨"Plan node for QEP-S update must contain table, operator and cost", by
            simp [QepsNode._integrate_subquery_join_costs, ht, hop, hcost]⟩
        | val c =>
          exfalso
          rcases hbad with h | h | h
          · rw [ht] at h
            cases h
          · rw [hop] at h
            cases h
          · rw [hcost] at h
            simp [PyFloat.isnan] at h
  refine ⟨hbase, hsub, ?_⟩
  intro hj hchild
  rw [integrate_costs_cons_join n query cur rest hj]
  unfold QepsNode.integrate_dispatch
  cases ho : cur.resolveOuter with
  | none => exact ⟨"IndexError: list index out of range", by simp⟩
  | some c =>
    by_cases hs : c.is_scan = true
    · obtain ⟨m, hm⟩ := hbase
      exact ⟨m, by simp [hs, hm]⟩
    · rcases hchild c ho with h | h
      · exact absurd h hs
      · obtain ⟨m, hm⟩ := hsub
        exact ⟨m, by simp [hs, h, hm]⟩

/-- Witness for C5 on a join node with no table, no operator and NaN
cost, whose outer child is a scan. -/
theorem tonic_integrate_malformed_join_raises_witness :
    (sampleBadJoin.table = none
     ∧ sampleBadJoin.is_join = true
     ∧ (∀ c, sampleBadJoin.resolveOuter = some c →
          c.is_scan = true ∨ c.is_join = true))
    ∧ (∃ m, (QepsNode.mk false (4/5) [] [] none)._integrate_base_join_costs
         sampleQuery sampleBadJoin [] = .error m)
    ∧ (∃ m, (QepsNode.mk false (4/5) [] [] none).integrate_costs sampleQuery
         [sampleBadJoin] = .error m) := by
  have hchild : ∀ c, sampleBadJoin.resolveOuter = some c →
      c.is_scan = true ∨ c.is_join = true := by
    intro c hc
    have : c = sampleScanR := by
      simp [sampleBadJoin, Plan.resolveOuter, Plan.outer_child, Plan.inner_first,
        Plan.children, sampleScanR, sampleScanS] at hc
      exact hc.symm
    subst this
    exact Or.inl rfl
  have hthm := tonic_integrate_malformed_join_raises
    (QepsNode.mk false (4/5) [] [] none) sampleQuery sampleBadJoin []
    (Or.inl rfl)
  exact ⟨⟨rfl, rfl, hchild⟩, hthm.1, hthm.2.2 rfl hchild⟩

theorem current_recommendation_some_length (m : QepsNode) (x : PhysicalOperator)
    (h : m.current_recommendation = some x) : 1 < m.operator_costs.length := by
  unfold QepsNode.current_recommendation at h
  by_cases hl : 1 < m.operator_costs.length
  · exact hl
  · rw [if_neg hl] at h
    cases h

theorem recommend_writes_from_evidence :
    ∀ (N : Nat) (seq : List JoinTreeNode), (seq.map jtWeight).sum ≤ N →
    ∀ (n : QepsNode) (query : SqlQuery) (asg : PhysicalOperatorAssignment)
      (key : Finset Table) (joa : JoinOperatorAssignment),
      assocLookup ((n.recommend_operators query seq asg).join_operators) key
        = some joa →
      assocLookup asg.join_operators key = some joa
      ∨ ∃ e ∈ n.recommendVisited query seq,
          1 < (Prod.fst e).operator_costs.length
          ∧ (Prod.fst e).current_recommendation = some joa.operator
          ∧ joa.join = (Prod.snd e).tables ∧ key = (Prod.snd e).tables := by
  intro N
  induction N with
  | zero =>
    intro seq hw n query asg key joa h
    cases seq with
    | nil =>
      left
      simp only [QepsNode.recommend_operators] at h
      exact h
    | cons a rest =>
      exfalso
      have ha : 1 ≤ jtWeight a := by
        cases a <;> simp [jtWeight]
      simp only [List.map_cons, List.sum_cons] at hw
      omega
  | succ N ih =>
    intro seq hw n query asg key joa h
    cases seq with
    | nil =>
      left
      simp only [QepsNode.recommend_operators] at h
      exact h
    | cons next rest =>
      simp only [List.map_cons, List.sum_cons] at hw
      have hrest : ((rest.map jtWeight).sum) ≤ N := by
        have ha : 1 ≤ jtWeight next := by
          cases next <;> simp [jtWeight]
        omega
      have hstep : ∀ (asg1 : PhysicalOperatorAssignment),
          (asg1 = asg
            ∨ ∃ recm, n.current_recommendation = some recm
                ∧ asg1 = asg.set_join_operator ⟨recm, next.tables⟩) →
          assocLookup asg1.join_operators key = some joa →
          assocLookup asg.join_operators key = some joa
          ∨ (1 < n.operator_costs.length
             ∧ n.current_recommendation = some joa.operator
             ∧ joa.join = next.tables ∧ key = next.tables) := by
        intro asg1 hasg1 hl
        rcases hasg1 with rfl | ⟨recm, hrec, rfl⟩
        · exact Or.inl hl
        · simp only [PhysicalOperatorAssignment.set_join_operator] at hl
          by_cases hkey : key = next.tables
          · subst hkey
            rw [assocLookup_assocSet_self] at hl
            injection hl with hl2
            right
            refine ⟨current_recommendation_some_length n recm hrec, ?_, ?_, rfl⟩
            · rw [hrec, ← hl2]
            · rw [← hl2]
          · rw [assocLookup_assocSet_ne _ _ _ _ hkey] at hl
            exact Or.inl hl
      cases next with
      | base t b =>
        cases hrec : n.current_recommendation with
        | none =>
          simp only [QepsNode.recommend_operators, hrec] at h
          rcases hstep asg (Or.inl rfl) h with hl | ⟨hlen, hop, hjoin, hkeq⟩
          · exact Or.inl hl
          · exact Or.inr ⟨(n, .base t b),
              by simp [QepsNode.recommendVisited], hlen, hop, hjoin, hkeq⟩
        | some recm =>
          simp only [QepsNode.recommend_operators, hrec] at h
          rcases hstep _ (Or.inr ⟨recm, hrec, rfl⟩) h
            with hl | ⟨hlen, hop, hjoin, hkeq⟩
          · exact Or.inl hl
          · exact Or.inr ⟨(n, .base t b),
              by simp [QepsNode.recommendVisited], hlen, hop, hjoin, hkeq⟩
      | joinNode next_node right_tree bound =>
        cases next_node with
        | base t tb =>
          cases hrec : n.current_recommendation with
          | none =>
            simp only [QepsNode.recommend_operators, hrec] at h
            rcases ih rest hrest _ query _ key joa h with hl | ⟨e, hmem, hP⟩
            · rcases hstep asg (Or.inl rfl) hl
                with hl2 | ⟨hlen, hop, hjoin, hkeq⟩
              · exact Or.inl hl2
              · exact Or.inr ⟨(n, .joinNode (.base t tb) right_tree bound),
                  by simp [QepsNode.recommendVisited], hlen, hop, hjoin, hkeq⟩
            · refine Or.inr ⟨e, ?_, hP⟩
              simp only [QepsNode.recommendVisited]
              exact List.mem_cons_of_mem _ hmem
          | some recm =>
            simp only [QepsNode.recommend_operators, hrec] at h
            rcases ih rest hrest _ query _ key joa h with hl | ⟨e, hmem, hP⟩
            · rcases hstep _ (Or.inr ⟨recm, hrec, rfl⟩) hl
                with hl2 | ⟨hlen, hop, hjoin, hkeq⟩
              · exact Or.inl hl2
              · exact Or.inr ⟨(n, .joinNode (.base t tb) right_tree bound),
                  by simp [QepsNode.recommendVisited], hlen, hop, hjoin, hkeq⟩
            · refine Or.inr ⟨e, ?_, hP⟩
              simp only [QepsNode.recommendVisited]
              exact List.mem_cons_of_mem _ hmem
        | joinNode ll lr lb =>
          have hsub :
              (((iterateJoinTree (.joinNode ll lr lb)).map jtWeight).sum) ≤ N := by
            have hsum : ∀ t : JoinTreeNode,
                ((iterateJoinTree t).map jtWeight).sum = jtSpineWeight t := by
              intro t
              induction t with
              | base tab b2 => simp [iterateJoinTree, jtSpineWeight]
              | joinNode l2 r2 b2 ihl ihr =>
                simp [iterateJoinTree, jtSpineWeight, jtWeight, ihr]
            rw [hsum]
            simp only [jtWeight] at hw
            omega
          cases hrec : n.current_recommendation with
          | none =>
            simp only [QepsNode.recommend_operators, hrec] at h
            rcases ih rest hrest _ query _ key joa h with hl | ⟨e, hmem, hP⟩
            · rcases ih _ hsub _ query _ key joa hl with hl2 | ⟨e, hmem, hP⟩
              · rcases hstep asg (Or.inl rfl) hl2
                  with hl3 | ⟨hlen, hop, hjoin, hkeq⟩
                · exact Or.inl hl3
                · exact Or.inr
                    ⟨(n, .joinNode (.joinNode ll lr lb) right_tree bound),
                     by simp [QepsNode.recommendVisited], hlen, hop, hjoin, hkeq⟩
              · refine Or.inr ⟨e, ?_, hP⟩
                simp only [QepsNode.recommendVisited]
                refine List.mem_cons_of_mem _ ?_
                exact List.mem_append_left _ hmem
            · refine Or.inr ⟨e, ?_, hP⟩
              simp only [QepsNode.recommendVisited]
              refine List.mem_cons_of_mem _ ?_
              exact List.mem_append_right _ hmem
          | some recm =>
            simp only [QepsNode.recommend_operators, hrec] at h
            rcases ih rest hrest _ query _ key joa h with hl | ⟨e, hmem, hP⟩
            · rcases ih _ hsub _ query _ key joa hl with hl2 | ⟨e, hmem, hP⟩
              · rcases hstep _ (Or.inr ⟨recm, hrec, rfl⟩) hl2
                  with hl3 | ⟨hlen, hop, hjoin, hkeq⟩
                · exact Or.inl hl3
                · exact Or.inr
                    ⟨(n, .joinNode (.joinNode ll lr lb) right_tree bound),
                     by simp [QepsNode.recommendVisited], hlen, hop, hjoin, hkeq⟩
              · refine Or.inr ⟨e, ?_, hP⟩
                simp only [QepsNode.recommendVisited]
                refine List.mem_cons_of_mem _ ?_
                exact List.mem_append_left _ hmem
            · refine Or.inr ⟨e, ?_, hP⟩
              simp only [QepsNode.recommendVisited]
              refine List.mem_cons_of_mem _ ?_
              exact List.mem_append_right _ hmem

/-- C2 — (i) a synopsis node with zero or one recorded operator costs
makes no recommendation; (ii) starting from the empty assignment, every
join-operator entry the walk writes stems from a node the walk actually
visits (an element of `recommendVisited`) at which more than one distinct
operator has a recorded cost, the written operator being that node's
minimum-cost recommendation for that step's join; (iii) hence a walk all
of whose visited nodes have zero or one recorded operators produces an
assignment with no join-operator entries at all. -/
theorem tonic_no_recommendation_without_evidence :
    (∀ m : QepsNode, m.operator_costs.length ≤ 1 →
      m.current_recommendation = none)
    ∧ (∀ (n : QepsNode) (query : SqlQuery) (seq : List JoinTreeNode)
        (key : Finset Table) (joa : JoinOperatorAssignment),
        assocLookup ((n.recommend_operators query seq
            PhysicalOperatorAssignment.empty).join_operators) key = some joa →
        ∃ e ∈ n.recommendVisited query seq,
          1 < (Prod.fst e).operator_costs.length
          ∧ (Prod.fst e).current_recommendation = some joa.operator
          ∧ joa.join = (Prod.snd e).tables ∧ key = (Prod.snd e).tables)
    ∧ (∀ (n : QepsNode) (query : SqlQuery) (seq : List JoinTreeNode),
        (∀ e ∈ n.recommendVisited query seq,
          (Prod.fst e).operator_costs.length ≤ 1) →
        (n.recommend_operators query seq
            PhysicalOperatorAssignment.empty).join_operators = []) := by
  refine ⟨?_, ?_, ?_⟩
  · intro m hm
    unfold QepsNode.current_recommendation
    rw [if_neg (by omega)]
  · intro n query seq key joa h
    rcases recommend_writes_from_evidence ((seq.map jtWeight).sum) seq
        (Nat.le_refl _) n query _ key joa h with hl | hFound
    · simp [PhysicalOperatorAssignment.empty, assocLookup] at hl
    · exact hFound
  · intro n query seq hsmall
    cases hlist : (n.recommend_operators query seq
        PhysicalOperatorAssignment.empty).join_operators with
    | nil => rfl
    | cons hd tl =>
      exfalso
      obtain ⟨k, v⟩ := hd
      have hlook : assocLookup ((n.recommend_operators query seq
          PhysicalOperatorAssignment.empty).join_operators) k = some v := by
        rw [hlist]
        simp [assocLookup]
      rcases recommend_writes_from_evidence ((seq.map jtWeight).sum) seq
          (Nat.le_refl _) n query _ k v hlook
        with hl | ⟨e, hmem, hlen, _⟩
      · simp [PhysicalOperatorAssignment.empty, assocLookup] at hl
      · have hle := hsmall e hmem
        omega

/-- Witness for C2: a single-cost node recommends nothing; a root holding
NestLoop=50, HashJoin=10 writes the hash join for R ⋈ S and is itself the
visited node the theorem exhibits; an all-empty synopsis (every visited
node has zero recorded operators) produces no entries. -/
theorem tonic_no_recommendation_without_evidence_witness :
    ((QepsNode.mk false (4/5)
        [(.join .NestedLoopJoin, 50)] [] none).operator_costs.length ≤ 1
     ∧ (QepsNode.mk false (4/5)
        [(.join .NestedLoopJoin, 50)] [] none).current_recommendation = none)
    ∧ (assocLookup
          (((QepsNode.mk false (4/5)
              [(.join .NestedLoopJoin, 50), (.join .HashJoin, 10)] [] none
            ).recommend_operators sampleQuery [sampleTreeRS]
              PhysicalOperatorAssignment.empty).join_operators)
          sampleTreeRS.tables
        = some ⟨.join .HashJoin, sampleTreeRS.tables⟩
       ∧ ∃ e ∈ (QepsNode.mk false (4/5)
            [(.join .NestedLoopJoin, 50), (.join .HashJoin, 10)] [] none
          ).recommendVisited sampleQuery [sampleTreeRS],
            1 < (Prod.fst e).operator_costs.length
            ∧ (Prod.fst e).current_recommendation
                = some (PhysicalOperator.join .HashJoin)
            ∧ (JoinOperatorAssignment.mk (.join .HashJoin)
                sampleTreeRS.tables).join = (Prod.snd e).tables
            ∧ sampleTreeRS.tables = (Prod.snd e).tables)
    ∧ ((∀ e ∈ (QepsNode.mk false (4/5) [] [] none).recommendVisited
          sampleQuery [sampleTreeRS],
          (Prod.fst e).operator_costs.length ≤ 1)
       ∧ ((QepsNode.mk false (4/5) [] [] none).recommend_operators sampleQuery
          [sampleTreeRS] PhysicalOperatorAssignment.empty).join_operators
          = []) := by
  have hrun : assocLookup
      (((QepsNode.mk false (4/5)
          [(.join .NestedLoopJoin, 50), (.join .HashJoin, 10)] [] none
        ).recommend_operators sampleQuery [sampleTreeRS]
          PhysicalOperatorAssignment.empty).join_operators)
      sampleTreeRS.tables
      = some ⟨.join .HashJoin, sampleTreeRS.tables⟩ := by
    norm_num [QepsNode.recommend_operators, sampleTreeRS,
      QepsNode.current_recommendation, QepsNode.operator_costs, argminAssoc,
      argminAssocGo, PhysicalOperatorAssignment.set_join_operator,
      PhysicalOperatorAssignment.empty, assocSet, QepsNode.getChild,
      QepsNode.child_nodes, assocLookup, QepsNode.init_qeps,
      QepsNode.make_identifier, QepsNode.filter_aware, QepsNode.gamma,
      JoinTreeNode.tables]
  have hsmall : ∀ e ∈ (QepsNode.mk false (4/5) [] [] none).recommendVisited
      sampleQuery [sampleTreeRS], (Prod.fst e).operator_costs.length ≤ 1 := by
    intro e he
    have he2 : e = (QepsNode.mk false (4/5) [] [] none, sampleTreeRS) := by
      simpa [QepsNode.recommendVisited, sampleTreeRS] using he
    rw [he2]
    simp [QepsNode.operator_costs]
  refine ⟨⟨by simp [QepsNode.operator_costs], ?_⟩, ⟨hrun, ?_⟩, hsmall, ?_⟩
  · exact tonic_no_recommendation_without_evidence.1 _
      (by simp [QepsNode.operator_costs])
  · exact tonic_no_recommendation_without_evidence.2.1 _ sampleQuery
      [sampleTreeRS] sampleTreeRS.tables _ hrun
  · exact tonic_no_recommendation_without_evidence.2.2 _ sampleQuery
      [sampleTreeRS] hsmall

/-- C6 — two-run determinism of the learning core: two synopses created
with the same gamma and filter-awareness that receive the identical
sequence of `integrate_costs` calls return the same assignment from
`recommend_operators` on the same query and join tree. -/
theorem tonic_two_run_determinism (fa : Bool) (g : ℚ)
    (calls : List (SqlQuery × Plan)) (query : SqlQuery)
    (join_order : JoinTreeNode) (s1 s2 : QueryExecutionPlanSynopsis)
    (h1 : applyFeedback (QueryExecutionPlanSynopsis.create fa g) calls = .ok s1)
    (h2 : applyFeedback (QueryExecutionPlanSynopsis.create fa g) calls = .ok s2) :
    s1.recommend_operators query join_order
      = s2.recommend_operators query join_order := by
  rw [h1] at h2
  injection h2 with h3
  rw [h3]

/-- Witness for C6: one feedback call on a scan-only plan. -/
theorem tonic_two_run_determinism_witness :
    (applyFeedback (QueryExecutionPlanSynopsis.create false (4/5))
        [(sampleQuery, sampleScanR)]
      = .ok (QueryExecutionPlanSynopsis.create false (4/5)))
    ∧ (QueryExecutionPlanSynopsis.create false (4/5)).recommend_operators
        sampleQuery sampleTreeRS
      = (QueryExecutionPlanSynopsis.create false (4/5)).recommend_operators
        sampleQuery sampleTreeRS := by
  have hiter : iterateQueryPlan sampleScanR = .ok [] := by
    rw [iterateQueryPlan]
    simp [sampleScanR, Plan.is_scan]
  have happ : applyFeedback (QueryExecutionPlanSynopsis.create false (4/5))
      [(sampleQuery, sampleScanR)]
      = .ok (QueryExecutionPlanSynopsis.create false (4/5)) := by
    simp only [applyFeedback, QueryExecutionPlanSynopsis.integrate_costs, hiter,
      QepsNode.integrate_costs]
  exact ⟨happ, tonic_two_run_determinism false (4/5) [(sampleQuery, sampleScanR)]
    sampleQuery sampleTreeRS _ _ happ happ⟩
